import Mathlib

/-!
Verification of the core arbitrage engine (`src/core/arbitrage.py`) and the
market-aggregation logic (`src/scanner.py`, `src/scanner_real_api.py`) of the
joel-arbitraasi repository.

Numbers are embedded as exact rationals (`ℚ`); Python's machine floats are
modelled by exact arithmetic.  Python's `round` (banker's rounding,
round-half-to-even) is embedded as `pyround`.  Functions that can raise are
embedded with `Except`/`Option`: `calculate_optimal_stakes` returns
`Except String _` (its `ValueError` precondition branch), and
`verify_arbitrage_payout` returns `Option _` (`none` models the unhandled
`ValueError` raised by `max`/`min` of an empty list).
-/

namespace Arb

/-- `core/models.py`, `Outcome`: a single betting outcome. -/
structure Outcome where
  bookmaker : String
  odds : ℚ
  market : String
deriving DecidableEq, Repr

/-- `core/models.py`, `ArbitrageOpportunity`: a detected arbitrage opportunity. -/
structure ArbitrageOpportunity where
  event_name : String
  outcomes : List Outcome
  arbitrage_percentage : ℚ
  profit_margin : ℚ
  total_bankroll : ℚ
  stakes : List ℚ
  guaranteed_profit : ℚ
  roi : ℚ
deriving DecidableEq, Repr

/-- Python's built-in `round` on a rational value: round to the nearest
integer, ties to the even neighbour (banker's rounding).  Off ties it agrees
with Mathlib's `round` (nearest integer, ties up). -/
def pyround (q : ℚ) : ℤ :=
  if q - ⌊q⌋ = 1/2 then (if ⌊q⌋ % 2 = 0 then ⌊q⌋ else ⌊q⌋ + 1) else round q

/-- `core/arbitrage.py`, `detect_arbitrage` (lines 15-48): returns
`(false, 0)` for fewer than two outcomes, `(false, 0)` as soon as some
outcome has odds ≤ 1, and otherwise `(S < 1, S)` with `S = Σ 1/odds_i`. -/
def detect_arbitrage (outcomes : List Outcome) : Bool × ℚ :=
  if outcomes.length < 2 then (false, 0)
  else if outcomes.any (fun o => decide (o.odds ≤ 1)) then (false, 0)
  else
    let s_value := (outcomes.map (fun o => 1 / o.odds)).sum
    (decide (s_value < 1), s_value)

/-- `core/arbitrage.py`, `calculate_optimal_stakes` (lines 51-84): raises
`ValueError` when `s_value ≥ 1`, otherwise maps each outcome to
`(total_bankroll / odds) / s_value`, rounded to a whole number when
`round_stakes` is set. -/
def calculate_optimal_stakes (outcomes : List Outcome) (total_bankroll : ℚ)
    (s_value : ℚ) (round_stakes : Bool) : Except String (List ℚ) :=
  if s_value ≥ 1 then
    Except.error "Cannot calculate stakes for non-arbitrage opportunity"
  else
    Except.ok (outcomes.map (fun o =>
      let stake := (total_bankroll / o.odds) / s_value
      if round_stakes then (pyround stake : ℚ) else stake))

/-- `core/arbitrage.py`, `calculate_guaranteed_profit` (lines 87-102). -/
def calculate_guaranteed_profit (total_bankroll : ℚ) (s_value : ℚ) : ℚ :=
  if s_value ≥ 1 then 0 else total_bankroll * (1 - s_value)

/-- `core/arbitrage.py`, `calculate_roi` (lines 105-120). -/
def calculate_roi (profit : ℚ) (total_investment : ℚ) : ℚ :=
  if total_investment ≤ 0 then 0 else (profit / total_investment) * 100

/-- `core/arbitrage.py`, `calculate_payout` (lines 123-135). -/
def calculate_payout (stake : ℚ) (odds : ℚ) : ℚ := stake * odds

/-- `core/arbitrage.py`, `create_arbitrage_opportunity` (lines 138-191).
The `Except.error` branch of the stake calculation is unreachable here,
because `is_arb = true` forces `s_value < 1`; it is mapped to `none`. -/
def create_arbitrage_opportunity (event_name : String) (outcomes : List Outcome)
    (total_bankroll : ℚ) : Option ArbitrageOpportunity :=
  let d := detect_arbitrage outcomes
  if d.1 then
    match calculate_optimal_stakes outcomes total_bankroll d.2 true with
    | Except.error _ => none
    | Except.ok stakes =>
      let actual_investment := stakes.sum
      let profit := calculate_guaranteed_profit actual_investment d.2
      let roi := calculate_roi profit actual_investment
      let profit_margin := (1 - d.2) * 100
      some { event_name := event_name
             outcomes := outcomes
             arbitrage_percentage := d.2
             profit_margin := profit_margin
             total_bankroll := actual_investment
             stakes := stakes
             guaranteed_profit := profit
             roi := roi }
  else none

/-- `core/arbitrage.py`, `verify_arbitrage_payout` (lines 194-221): returns
`(false, 0)` on a length mismatch; with matching non-zero lengths it compares
the extreme per-leg payouts; with two empty lists Python's `max([])` raises an
unhandled `ValueError`, modelled as `none`. -/
def verify_arbitrage_payout (stakes : List ℚ) (outcomes : List Outcome) :
    Option (Bool × ℚ) :=
  if stakes.length ≠ outcomes.length then some (false, 0)
  else
    match (stakes.zip outcomes).map (fun p => calculate_payout p.1 p.2.odds) with
    | [] => none
    | p :: rest =>
      let max_payout := rest.foldl max p
      let min_payout := rest.foldl min p
      some (decide (max_payout - min_payout ≤ 1), max_payout)

/-- One step of the grouping loops of `scanner.py` (`scan_event`, lines 52-61)
and `scanner_real_api.py` (`scan_event`, lines 66-71): insert one outcome into
an insertion-ordered association list keyed by market label, appending to the
existing group when the label was already seen (Python dict semantics). -/
def addToGroups (groups : List (String × List Outcome)) (o : Outcome) :
    List (String × List Outcome) :=
  match groups with
  | [] => [(o.market, [o])]
  | (m, g) :: rest =>
    if m = o.market then (m, g ++ [o]) :: rest else (m, g) :: addToGroups rest o

/-- The `outcomes_by_market` dict built by both scanners: group a flat outcome
list by market label, preserving first-appearance order of labels and
insertion order inside each group. -/
def groupByMarket (outcomes : List Outcome) : List (String × List Outcome) :=
  outcomes.foldl addToGroups []

/-- Python's `max(outcomes, key=lambda x: x.odds)`: the first outcome of
maximal odds (a later element replaces the current best only when strictly
greater).  `none` on the empty list (where Python raises). -/
def pickBest (l : List Outcome) : Option Outcome :=
  match l with
  | [] => none
  | x :: xs => some (xs.foldl (fun b o => if b.odds < o.odds then o else b) x)

/-- Dict lookup `outcomes_by_market[m]` on the association-list model. -/
def lookupGroup (m : String) : List (String × List Outcome) → Option (List Outcome)
  | [] => none
  | (k, g) :: rest => if k = m then some g else lookupGroup m rest

/-- `scanner.py`, `_check_three_way_arbitrage` (lines 80-101), selection part:
require exactly 3 market groups (whatever their labels) and take the best-odds
outcome of each group, in group order. -/
def scannerBestOutcomes (groups : List (String × List Outcome)) :
    Option (List Outcome) :=
  if groups.length ≠ 3 then none
  else some (groups.filterMap (fun p => pickBest p.2))

/-- `scanner.py`, `_check_three_way_arbitrage` (lines 80-114), end to end:
the selected best outcomes are handed to `create_arbitrage_opportunity`. -/
def check_three_way_arbitrage (event_name : String)
    (groups : List (String × List Outcome)) (bankroll : ℚ) :
    Option ArbitrageOpportunity :=
  match scannerBestOutcomes groups with
  | none => none
  | some best => create_arbitrage_opportunity event_name best bankroll

/-- The canonical three-way market labels listed in
`scanner_real_api.py`, line 84. -/
def canonicalMarkets : List String := ["Home Win", "Draw", "Away Win"]

/-- `scanner_real_api.py`, `scan_event` (lines 83-88): for each canonical
market label present among the groups, in canonical order, the best-odds
outcome of its group. -/
def realApiBestOutcomes (groups : List (String × List Outcome)) : List Outcome :=
  canonicalMarkets.filterMap (fun m => (lookupGroup m groups).bind pickBest)

/-- `scanner_real_api.py`, `scan_event` (lines 82-95), selection part: with at
least 3 market groups, filter to the canonical labels and proceed only when
all three are present. -/
def realApiSelect (groups : List (String × List Outcome)) : Option (List Outcome) :=
  if groups.length ≥ 3 then
    let best := realApiBestOutcomes groups
    if best.length = 3 then some best else none
  else none

/-- Scenario A of the spec and of `detect_arbitrage`'s docstring and unit
test: TOTO 2.1 on Home Win, Bet365 3.5 on Draw, Unibet 4.2 on Away Win. -/
def scenarioA : List Outcome :=
  [⟨"TOTO", 21/10, "Home Win"⟩, ⟨"Bet365", 7/2, "Draw"⟩, ⟨"Unibet", 21/5, "Away Win"⟩]

/-- A two-leg arbitrage set: equal odds of 3 on both legs, `S = 2/3`. -/
def exTwo : List Outcome := [⟨"A", 3, "Home Win"⟩, ⟨"B", 3, "Away Win"⟩]

/-- A two-leg arbitrage set with skewed odds 2 and 4, `S = 3/4`. -/
def exSkewed : List Outcome := [⟨"A", 2, "Home Win"⟩, ⟨"B", 4, "Away Win"⟩]

/-- Three market groups where the third label, "Draw No Bet", is not one of
the canonical three-way labels. -/
def exScannerDNB : List Outcome :=
  [⟨"X1", 3, "Home Win"⟩, ⟨"X2", 4, "Draw"⟩, ⟨"X3", 5, "Draw No Bet"⟩]

/-- Four market groups: the canonical three plus an extraneous
"Draw No Bet" group. -/
def exRealDNB : List Outcome :=
  [⟨"A", 3, "Home Win"⟩, ⟨"B", 4, "Draw"⟩, ⟨"C", 5, "Away Win"⟩, ⟨"D", 6, "Draw No Bet"⟩]

/-- `pyround` differs from its argument by at most one half. -/
lemma abs_pyround_sub_le (q : ℚ) : |(pyround q : ℚ) - q| ≤ 1/2 := by
  unfold pyround
  by_cases ht : q - ⌊q⌋ = 1/2
  · by_cases he : ⌊q⌋ % 2 = 0
    · simp only [ht, he, if_true, if_pos]
      rw [abs_le]
      constructor <;> linarith [ht]
    · simp only [ht, he, if_true, if_neg, if_false]
      push_cast
      rw [abs_le]
      constructor <;> linarith [ht]
  · simp only [ht, if_neg, if_false]
    rw [abs_sub_comm]
    exact abs_sub_round q

/-- `pyround` maps non-negative rationals to non-negative integers. -/
lemma pyround_nonneg (q : ℚ) (hq : 0 ≤ q) : 0 ≤ pyround q := by
  unfold pyround
  have hfl : (0:ℤ) ≤ ⌊q⌋ + 1 := by
    have := Int.floor_nonneg.mpr hq
    omega
  by_cases ht : q - ⌊q⌋ = 1/2
  · by_cases he : ⌊q⌋ % 2 = 0
    · simp only [ht, he, if_true, if_pos]
      exact Int.floor_nonneg.mpr hq
    · simp only [ht, he, if_true, if_neg, if_false]
      have := Int.floor_nonneg.mpr hq
      omega
  · simp only [ht, if_neg, if_false]
    rw [round_eq]
    exact Int.floor_nonneg.mpr (by linarith)

/-- Concrete value of `pyround` at `2/3`. -/
lemma pyround_two_thirds : pyround (2/3) = 1 := by norm_num [pyround, round_eq]

/-- Concrete value of `pyround` at `1/3`. -/
lemma pyround_one_third : pyround (1/3) = 0 := by norm_num [pyround, round_eq]

/-- Concrete value of `pyround` at the integer 500. -/
lemma pyround_five_hundred : pyround 500 = 500 := by norm_num [pyround, round_eq]

/-- Concrete value of `pyround` at the integer −500. -/
lemma pyround_neg_five_hundred : pyround (-500) = -500 := by
  norm_num [pyround, round_eq]

/-- Characterisation of a `true` verdict of `detect_arbitrage`. -/
lemma detect_true_elim (outcomes : List Outcome)
    (h : (detect_arbitrage outcomes).1 = true) :
    2 ≤ outcomes.length ∧ (∀ o ∈ outcomes, 1 < o.odds) ∧
    (detect_arbitrage outcomes).2 = (outcomes.map (fun o => 1 / o.odds)).sum ∧
    (detect_arbitrage outcomes).2 < 1 := by
  unfold detect_arbitrage at *
  by_cases h1 : outcomes.length < 2
  · simp [h1] at h
  · by_cases h2 : outcomes.any (fun o => decide (o.odds ≤ 1)) = true
    · simp [h1, h2] at h
    · refine ⟨by omega, ?_, ?_, ?_⟩
      · intro o ho
        by_contra hodds
        exact h2 (List.any_eq_true.mpr ⟨o, ho, by simpa using le_of_not_lt hodds⟩)
      · simp [h1, h2]
      · simp only [h1, if_false, h2, if_neg, Bool.not_eq_true] at h ⊢
        simp only [decide_eq_true_eq] at h
        simpa using h

/-- The reciprocal-odds sum of a detected arbitrage set is positive. -/
lemma detect_true_sum_pos (outcomes : List Outcome)
    (h : (detect_arbitrage outcomes).1 = true) :
    0 < (detect_arbitrage outcomes).2 := by
  obtain ⟨hlen, hodds, hsum, _⟩ := detect_true_elim outcomes h
  rw [hsum]
  match outcomes, hlen with
  | a :: rest, _ =>
    have ha : 0 < 1 / a.odds := by
      have := hodds a (by simp)
      positivity
    have hrest : 0 ≤ (rest.map (fun o => 1 / o.odds)).sum := by
      apply List.sum_nonneg
      intro x hx
      obtain ⟨o, ho, rfl⟩ := List.mem_map.mp hx
      have := hodds o (by simp [ho])
      positivity
    simp only [List.map_cons, List.sum_cons]
    linarith

/-- C1: for every list of outcomes, `detect_arbitrage` returns `(false, 0)`
when the list has fewer than 2 outcomes, returns `(false, 0)` when any
outcome has odds ≤ 1, and otherwise returns `(S < 1, S)` where
`S = Σ 1/odds_i` over all outcomes. -/
theorem detect_arbitrage_spec (outcomes : List Outcome) :
    (outcomes.length < 2 → detect_arbitrage outcomes = (false, 0)) ∧
    ((∃ o ∈ outcomes, o.odds ≤ 1) → detect_arbitrage outcomes = (false, 0)) ∧
    (2 ≤ outcomes.length → (∀ o ∈ outcomes, 1 < o.odds) →
      detect_arbitrage outcomes =
        (decide ((outcomes.map (fun o => 1 / o.odds)).sum < 1),
         (outcomes.map (fun o => 1 / o.odds)).sum)) := by
  unfold detect_arbitrage
  refine ⟨fun h1 => by simp [h1], ?_, fun h1 h2 => ?_⟩
  · rintro ⟨o, ho, hodds⟩
    by_cases h1 : outcomes.length < 2
    · simp [h1]
    · have hany : outcomes.any (fun o => decide (o.odds ≤ 1)) = true :=
        List.any_eq_true.mpr ⟨o, ho, by simpa using hodds⟩
      simp [h1, hany]
  · have hlt : ¬ outcomes.length < 2 := by omega
    have hany : outcomes.any (fun o => decide (o.odds ≤ 1)) = false := by
      rw [List.any_eq_false]
      intro o ho
      simpa using not_le.mpr (h2 o ho)
    simp [hlt, hany]

/-- Witness for C1 at the concrete two-leg set `exTwo`. -/
theorem detect_arbitrage_spec_witness :
    2 ≤ exTwo.length ∧ (∀ o ∈ exTwo, 1 < o.odds) ∧
    detect_arbitrage exTwo = (true, 2/3) := by
  refine ⟨by norm_num [exTwo], by norm_num [exTwo], ?_⟩
  have h := (detect_arbitrage_spec exTwo).2.2 (by norm_num [exTwo]) (by norm_num [exTwo])
  rw [h]
  norm_num [exTwo]

/-- C7: `calculate_guaranteed_profit B S` returns `B * (1 - S)` when `S < 1`
and `0` when `S ≥ 1`; the result is non-negative whenever the bankroll is
non-negative (the original claim's unconditional non-negativity fails for a
negative bankroll, see the counterexample). -/
theorem calculate_guaranteed_profit_spec (B s : ℚ) :
    (s < 1 → calculate_guaranteed_profit B s = B * (1 - s)) ∧
    (1 ≤ s → calculate_guaranteed_profit B s = 0) ∧
    (0 ≤ B → 0 ≤ calculate_guaranteed_profit B s) := by
  unfold calculate_guaranteed_profit
  refine ⟨fun h => by rw [if_neg (not_le.mpr h)], fun h => by rw [if_pos h], fun hB => ?_⟩
  by_cases h : s ≥ 1
  · simp [h]
  · rw [if_neg h]
    have hs : s < 1 := not_le.mp h
    have : (0:ℚ) ≤ 1 - s := by linarith
    exact mul_nonneg hB this

/-- Counterexample to C7 as stated: with a negative bankroll the result of
`calculate_guaranteed_profit` is negative. -/
theorem guaranteed_profit_negative_cex :
    calculate_guaranteed_profit (-100) (1/2) = -50 ∧ (-50 : ℚ) < 0 := by
  norm_num [calculate_guaranteed_profit]

/-- Witness for C7 at bankroll 1000 and `S = 1/2`. -/
theorem calculate_guaranteed_profit_spec_witness :
    ((1:ℚ)/2 < 1 ∧ calculate_guaranteed_profit 1000 (1/2) = 1000 * (1 - 1/2)) ∧
    ((0:ℚ) ≤ 1000 ∧ 0 ≤ calculate_guaranteed_profit 1000 (1/2)) :=
  ⟨⟨by norm_num, (calculate_guaranteed_profit_spec 1000 (1/2)).1 (by norm_num)⟩,
   ⟨by norm_num, (calculate_guaranteed_profit_spec 1000 (1/2)).2.2 (by norm_num)⟩⟩

/-- C9: the spec's Scenario A — also the docstring example and the unit test
`test_detect_valid_arbitrage` of the repository — claims `S ≈ 0.9997` with
`is_arbitrage = true` for odds 2.1 / 3.5 / 4.2.  In fact
`1/2.1 + 1/3.5 + 1/4.2 = 10/21 + 6/21 + 5/21 = 1` exactly, so
`detect_arbitrage` returns `(false, 1.0)` and
`create_arbitrage_opportunity` returns no opportunity: the code contradicts
its own documentation and test at this input. -/
theorem scenarioA_not_arbitrage :
    detect_arbitrage scenarioA = (false, 1) ∧
    create_arbitrage_opportunity "Ajax vs PSV" scenarioA 1000 = none := by
  constructor
  · norm_num [detect_arbitrage, scenarioA]
  · norm_num [create_arbitrage_opportunity, detect_arbitrage, scenarioA]

/-- C10: `verify_arbitrage_payout` fails to return a result (Python raises
`ValueError` on `max([])`) exactly when both lists are empty; for any other
pair of lists — lengths differing, or both non-empty — it returns a value. -/
theorem verify_arbitrage_payout_none_iff (stakes : List ℚ) (outcomes : List Outcome) :
    verify_arbitrage_payout stakes outcomes = none ↔ stakes = [] ∧ outcomes = [] := by
  cases stakes with
  | nil =>
    cases outcomes with
    | nil => simp [verify_arbitrage_payout]
    | cons b bs => simp [verify_arbitrage_payout]
  | cons a as =>
    cases outcomes with
    | nil => simp [verify_arbitrage_payout]
    | cons b bs =>
      by_cases hl : (a :: as).length ≠ (b :: bs).length
      · simp only [verify_arbitrage_payout, hl]
        simp
        split <;> simp
      · simp only [verify_arbitrage_payout, hl]
        simp
/-- C3: `calculate_optimal_stakes` fails with the precondition error exactly
when `s_value ≥ 1`; when `s_value < 1` it returns one stake per outcome, in
input order, the stake for outcome `i` being `(bankroll / odds_i) / s_value`
(rounded when rounding is enabled). -/
theorem calculate_optimal_stakes_spec (outcomes : List Outcome) (B s : ℚ) (rnd : Bool) :
    ((∃ e, calculate_optimal_stakes outcomes B s rnd = Except.error e) ↔ 1 ≤ s) ∧
    (s < 1 → ∃ stakes, calculate_optimal_stakes outcomes B s rnd = Except.ok stakes ∧
      stakes.length = outcomes.length ∧
      ∀ i (hi : i < stakes.length) (hi2 : i < outcomes.length),
        stakes.get ⟨i, hi⟩ =
          (if rnd then ((pyround ((B / (outcomes.get ⟨i, hi2⟩).odds) / s) : ℤ) : ℚ)
           else (B / (outcomes.get ⟨i, hi2⟩).odds) / s)) := by
  constructor
  · constructor
    · rintro ⟨e, he⟩
      by_cases h : s ≥ 1
      · exact h
      · unfold calculate_optimal_stakes at he
        rw [if_neg h] at he
        simp at he
    · intro h
      exact ⟨_, by unfold calculate_optimal_stakes; rw [if_pos h]⟩
  · intro h
    refine ⟨outcomes.map (fun o =>
        let stake := (B / o.odds) / s
        if rnd then ((pyround stake : ℤ) : ℚ) else stake), ?_, by simp, ?_⟩
    · unfold calculate_optimal_stakes
      rw [if_neg (not_le.mpr h)]
    · intro i hi hi2
      simp [List.get_map]

/-- Witness for C3 at `exTwo`, bankroll 1000, `S = 2/3`, rounding off. -/
theorem calculate_optimal_stakes_spec_witness :
    (2:ℚ)/3 < 1 ∧
    (∃ stakes, calculate_optimal_stakes exTwo 1000 (2/3) false = Except.ok stakes ∧
      stakes.length = exTwo.length ∧
      ∀ i (hi : i < stakes.length) (hi2 : i < exTwo.length),
        stakes.get ⟨i, hi⟩ =
          (if false then ((pyround ((1000 / (exTwo.get ⟨i, hi2⟩).odds) / (2/3)) : ℤ) : ℚ)
           else (1000 / (exTwo.get ⟨i, hi2⟩).odds) / (2/3))) :=
  ⟨by norm_num,
   (calculate_optimal_stakes_spec exTwo 1000 (2/3) false).2 (by norm_num)⟩

/-- C2: `create_arbitrage_opportunity` returns `none` exactly when detection
rejects; otherwise it returns an opportunity whose `total_bankroll` is the
sum of the rounded stakes (not the requested bankroll), whose
`guaranteed_profit` is that rounded sum times `1 - S`, whose `roi` is
computed from that profit over that rounded sum, and whose `profit_margin`
is `(1 - S) * 100`. -/
theorem create_arbitrage_opportunity_spec (name : String) (outcomes : List Outcome) (B : ℚ) :
    ((detect_arbitrage outcomes).1 = false →
      create_arbitrage_opportunity name outcomes B = none) ∧
    ((detect_arbitrage outcomes).1 = true →
      ∃ stakes,
        calculate_optimal_stakes outcomes B (detect_arbitrage outcomes).2 true =
          Except.ok stakes ∧
        create_arbitrage_opportunity name outcomes B = some
          { event_name := name
            outcomes := outcomes
            arbitrage_percentage := (detect_arbitrage outcomes).2
            profit_margin := (1 - (detect_arbitrage outcomes).2) * 100
            total_bankroll := stakes.sum
            stakes := stakes
            guaranteed_profit := stakes.sum * (1 - (detect_arbitrage outcomes).2)
            roi := calculate_roi (stakes.sum * (1 - (detect_arbitrage outcomes).2))
                     stakes.sum }) := by
  constructor
  · intro h
    unfold create_arbitrage_opportunity
    simp [h]
  · intro h
    have hs : (detect_arbitrage outcomes).2 < 1 := (detect_true_elim outcomes h).2.2.2
    have hcalc : calculate_optimal_stakes outcomes B (detect_arbitrage outcomes).2 true =
        Except.ok (outcomes.map (fun o =>
          let stake := (B / o.odds) / (detect_arbitrage outcomes).2
          if true then ((pyround stake : ℤ) : ℚ) else stake)) := by
      unfold calculate_optimal_stakes
      rw [if_neg (not_le.mpr hs)]
    refine ⟨_, hcalc, ?_⟩
    unfold create_arbitrage_opportunity
    simp only [h, if_true, hcalc, calculate_guaranteed_profit, not_le.mpr hs, if_false,
      if_neg (not_le.mpr hs)]

/-- Witness for C2 at `exTwo` with bankroll 1000. -/
theorem create_arbitrage_opportunity_spec_witness :
    (detect_arbitrage exTwo).1 = true ∧
    (∃ stakes,
      calculate_optimal_stakes exTwo 1000 (detect_arbitrage exTwo).2 true =
        Except.ok stakes ∧
      create_arbitrage_opportunity "Ajax vs PSV" exTwo 1000 = some
        { event_name := "Ajax vs PSV"
          outcomes := exTwo
          arbitrage_percentage := (detect_arbitrage exTwo).2
          profit_margin := (1 - (detect_arbitrage exTwo).2) * 100
          total_bankroll := stakes.sum
          stakes := stakes
          guaranteed_profit := stakes.sum * (1 - (detect_arbitrage exTwo).2)
          roi := calculate_roi (stakes.sum * (1 - (detect_arbitrage exTwo).2))
                   stakes.sum }) :=
  ⟨by norm_num [detect_arbitrage, exTwo],
   (create_arbitrage_opportunity_spec "Ajax vs PSV" exTwo 1000).2
     (by norm_num [detect_arbitrage, exTwo])⟩

/-- C6: with rounding disabled, every stake produced by
`calculate_optimal_stakes` pays out exactly `bankroll / s_value` on its leg,
independent of which outcome wins. -/
theorem unrounded_payout_eq (outcomes : List Outcome) (B s : ℚ) (stakes : List ℚ)
    (hodds : ∀ o ∈ outcomes, 1 < o.odds) (hs : s < 1)
    (h : calculate_optimal_stakes outcomes B s false = Except.ok stakes) :
    ∀ i (hi : i < stakes.length) (hi2 : i < outcomes.length),
      calculate_payout (stakes.get ⟨i, hi⟩) ((outcomes.get ⟨i, hi2⟩).odds) = B / s := by
  unfold calculate_optimal_stakes at h
  rw [if_neg (not_le.mpr hs)] at h
  have hstakes := (Except.ok.inj h).symm
  subst hstakes
  intro i hi hi2
  have hmem : outcomes.get ⟨i, hi2⟩ ∈ outcomes := List.get_mem _ _ hi2
  have ho : (0:ℚ) < (outcomes.get ⟨i, hi2⟩).odds :=
    lt_trans zero_lt_one (hodds _ hmem)
  simp only [calculate_payout, List.get_map]
  norm_num
  rcases eq_or_ne s 0 with rfl | hs0
  · simp
  · have h1 : (outcomes[i]).odds ≠ 0 := ne_of_gt (by simpa using ho)
    field_simp
    ring

/-- Witness for C6 at `exTwo`, bankroll 1000, `S = 2/3`, first leg. -/
theorem unrounded_payout_eq_witness :
    calculate_optimal_stakes exTwo 1000 (2/3) false = Except.ok [500, 500] ∧
    calculate_payout (([500, 500] : List ℚ).get ⟨0, by norm_num⟩)
      ((exTwo.get ⟨0, by norm_num [exTwo]⟩).odds) = 1000 / (2/3) := by
  have hcalc : calculate_optimal_stakes exTwo 1000 (2/3) false = Except.ok [500, 500] := by
    norm_num [calculate_optimal_stakes, exTwo]
  exact ⟨hcalc,
    unrounded_payout_eq exTwo 1000 (2/3) [500, 500]
      (by norm_num [exTwo]) (by norm_num) hcalc 0 (by norm_num) (by norm_num [exTwo])⟩

/-- A rounded stake's payout lies within half of its leg's odds of the ideal
common payout `B / s`. -/
lemma leg_payout_close (o : Outcome) (B s : ℚ) (ho : 0 < o.odds) :
    |((pyround ((B / o.odds) / s) : ℤ) : ℚ) * o.odds - B / s| ≤ o.odds / 2 := by
  have key : ((B / o.odds) / s) * o.odds = B / s := by
    rcases eq_or_ne s 0 with rfl | hs0
    · simp
    · field_simp
      ring
  calc |((pyround ((B / o.odds) / s) : ℤ) : ℚ) * o.odds - B / s|
      = |((pyround ((B / o.odds) / s) : ℤ) : ℚ) * o.odds -
          ((B / o.odds) / s) * o.odds| := by rw [key]
    _ = |((pyround ((B / o.odds) / s) : ℤ) : ℚ) - (B / o.odds) / s| * o.odds := by
        rw [← sub_mul, abs_mul, abs_of_pos ho]
    _ ≤ (1/2) * o.odds :=
        mul_le_mul_of_nonneg_right (abs_pyround_sub_le _) ho.le
    _ = o.odds / 2 := by ring

/-- C5 amended: with rounding enabled, the per-leg payouts of the stakes
produced by `calculate_optimal_stakes` differ pairwise by at most
`(odds_i + odds_j) / 2` — not by at most one currency unit, which fails for
small bankrolls (see the counterexample). -/
theorem rounded_payout_pairwise_bound (outcomes : List Outcome) (B s : ℚ)
    (stakes : List ℚ) (hodds : ∀ o ∈ outcomes, 1 < o.odds)
    (h : calculate_optimal_stakes outcomes B s true = Except.ok stakes) :
    ∀ i j (hi : i < stakes.length) (hj : j < stakes.length)
      (hi2 : i < outcomes.length) (hj2 : j < outcomes.length),
      |calculate_payout (stakes.get ⟨i, hi⟩) ((outcomes.get ⟨i, hi2⟩).odds) -
        calculate_payout (stakes.get ⟨j, hj⟩) ((outcomes.get ⟨j, hj2⟩).odds)| ≤
        ((outcomes.get ⟨i, hi2⟩).odds + (outcomes.get ⟨j, hj2⟩).odds) / 2 := by
  have herr : ¬ (1 ≤ s) := by
    intro hge
    unfold calculate_optimal_stakes at h
    rw [if_pos hge] at h
    simp at h
  unfold calculate_optimal_stakes at h
  rw [if_neg herr] at h
  have hstakes := (Except.ok.inj h).symm
  subst hstakes
  intro i j hi hj hi2 hj2
  have hoi : (0:ℚ) < (outcomes.get ⟨i, hi2⟩).odds :=
    lt_trans zero_lt_one (hodds _ (List.get_mem _ _ hi2))
  have hoj : (0:ℚ) < (outcomes.get ⟨j, hj2⟩).odds :=
    lt_trans zero_lt_one (hodds _ (List.get_mem _ _ hj2))
  have hci := leg_payout_close (outcomes.get ⟨i, hi2⟩) B s hoi
  have hcj := leg_payout_close (outcomes.get ⟨j, hj2⟩) B s hoj
  simp only [calculate_payout, List.get_map]
  norm_num
  have tri := abs_sub_le
    (((pyround ((B / (outcomes.get ⟨i, hi2⟩).odds) / s) : ℤ) : ℚ) *
      (outcomes.get ⟨i, hi2⟩).odds)
    (B / s)
    (((pyround ((B / (outcomes.get ⟨j, hj2⟩).odds) / s) : ℤ) : ℚ) *
      (outcomes.get ⟨j, hj2⟩).odds)
  rw [abs_sub_comm (B / s)] at tri
  calc |((pyround ((B / (outcomes.get ⟨i, hi2⟩).odds) / s) : ℤ) : ℚ) *
          (outcomes.get ⟨i, hi2⟩).odds -
        ((pyround ((B / (outcomes.get ⟨j, hj2⟩).odds) / s) : ℤ) : ℚ) *
          (outcomes.get ⟨j, hj2⟩).odds|
      ≤ |((pyround ((B / (outcomes.get ⟨i, hi2⟩).odds) / s) : ℤ) : ℚ) *
           (outcomes.get ⟨i, hi2⟩).odds - B / s| +
        |((pyround ((B / (outcomes.get ⟨j, hj2⟩).odds) / s) : ℤ) : ℚ) *
           (outcomes.get ⟨j, hj2⟩).odds - B / s| := tri
    _ ≤ (outcomes.get ⟨i, hi2⟩).odds / 2 + (outcomes.get ⟨j, hj2⟩).odds / 2 :=
        add_le_add hci hcj
    _ = ((outcomes.get ⟨i, hi2⟩).odds + (outcomes.get ⟨j, hj2⟩).odds) / 2 := by ring

/-- Counterexample to C5 as stated: for the arbitrage set `exSkewed`
(odds 2 and 4, `S = 3/4 < 1`) with bankroll 1, the rounded stakes are 1 and
0, the per-leg payouts are 2 and 0 — spread 2, exceeding 1 currency unit —
and `verify_arbitrage_payout` reports `false`. -/
theorem rounded_payout_spread_cex :
    detect_arbitrage exSkewed = (true, 3/4) ∧
    calculate_optimal_stakes exSkewed 1 (3/4) true = Except.ok [1, 0] ∧
    verify_arbitrage_payout [1, 0] exSkewed = some (false, 2) := by
  refine ⟨by norm_num [detect_arbitrage, exSkewed], ?_, ?_⟩
  · norm_num [calculate_optimal_stakes, exSkewed, pyround_two_thirds, pyround_one_third]
  · norm_num [verify_arbitrage_payout, exSkewed, calculate_payout, max_def, min_def]

/-- Witness for the amended C5 at `exTwo`, bankroll 1000, `S = 2/3`. -/
theorem rounded_payout_pairwise_bound_witness :
    (∀ o ∈ exTwo, 1 < o.odds) ∧
    calculate_optimal_stakes exTwo 1000 (2/3) true = Except.ok [500, 500] ∧
    |calculate_payout (([500, 500] : List ℚ).get ⟨0, by norm_num⟩)
        ((exTwo.get ⟨0, by norm_num [exTwo]⟩).odds) -
      calculate_payout (([500, 500] : List ℚ).get ⟨1, by norm_num⟩)
        ((exTwo.get ⟨1, by norm_num [exTwo]⟩).odds)| ≤
      ((exTwo.get ⟨0, by norm_num [exTwo]⟩).odds +
       (exTwo.get ⟨1, by norm_num [exTwo]⟩).odds) / 2 := by
  have hcalc : calculate_optimal_stakes exTwo 1000 (2/3) true = Except.ok [500, 500] := by
    norm_num [calculate_optimal_stakes, exTwo, pyround_five_hundred]
  exact ⟨by norm_num [exTwo], hcalc,
    rounded_payout_pairwise_bound exTwo 1000 (2/3) [500, 500]
      (by norm_num [exTwo]) hcalc 0 1 (by norm_num) (by norm_num)
      (by norm_num [exTwo]) (by norm_num [exTwo])⟩

/-- C8 amended: every opportunity constructed by
`create_arbitrage_opportunity` has as many stakes as outcomes and an
arbitrage percentage below 1, each stake is integer-valued, and — provided
the requested bankroll is non-negative — each stake is non-negative (the
original unconditional non-negativity fails for a negative bankroll, see the
counterexample). -/
theorem opportunity_invariants (name : String) (outs : List Outcome) (B : ℚ)
    (opp : ArbitrageOpportunity)
    (h : create_arbitrage_opportunity name outs B = some opp) :
    opp.stakes.length = opp.outcomes.length ∧
    opp.arbitrage_percentage < 1 ∧
    (∀ st ∈ opp.stakes, ∃ n : ℤ, st = (n : ℚ)) ∧
    (0 ≤ B → ∀ st ∈ opp.stakes, 0 ≤ st) := by
  unfold create_arbitrage_opportunity at h
  by_cases hd : (detect_arbitrage outs).1 = true
  · have hs1 : (detect_arbitrage outs).2 < 1 := (detect_true_elim outs hd).2.2.2
    have hspos : 0 < (detect_arbitrage outs).2 := detect_true_sum_pos outs hd
    have hodds : ∀ o ∈ outs, 1 < o.odds := (detect_true_elim outs hd).2.1
    have hcalc : calculate_optimal_stakes outs B (detect_arbitrage outs).2 true =
        Except.ok (outs.map (fun o =>
          let stake := (B / o.odds) / (detect_arbitrage outs).2
          if true then ((pyround stake : ℤ) : ℚ) else stake)) := by
      unfold calculate_optimal_stakes
      rw [if_neg (not_le.mpr hs1)]
    simp only [hd, if_true, hcalc] at h
    have hopp := (Option.some.inj h).symm
    subst hopp
    refine ⟨by simp, hs1, ?_, ?_⟩
    · intro st hst
      simp only [List.mem_map] at hst
      obtain ⟨o, _, rfl⟩ := hst
      exact ⟨_, rfl⟩
    · intro hB st hst
      simp only [List.mem_map] at hst
      obtain ⟨o, ho, rfl⟩ := hst
      have hop : (0:ℚ) < o.odds := lt_trans zero_lt_one (hodds o ho)
      have hq : (0:ℚ) ≤ (B / o.odds) / (detect_arbitrage outs).2 := by positivity
      simpa using pyround_nonneg _ hq
  · simp only [Bool.not_eq_true] at hd
    simp [hd] at h

/-- Counterexample to C8 as stated: with the requested bankroll −1000 on the
arbitrage set `exTwo`, `create_arbitrage_opportunity` constructs an
opportunity whose stakes are −500 and −500 — negative. -/
theorem opportunity_negative_stake_cex :
    ((create_arbitrage_opportunity "E" exTwo (-1000)).map
        (fun a => a.stakes)) = some [-500, -500] ∧
    ¬ (0:ℚ) ≤ -500 := by
  refine ⟨?_, by norm_num⟩
  norm_num [create_arbitrage_opportunity, detect_arbitrage,
    calculate_optimal_stakes, exTwo, pyround_neg_five_hundred]

/-- Witness for the amended C8 at `exTwo` with bankroll 1000. -/
theorem opportunity_invariants_witness :
    ∃ opp, create_arbitrage_opportunity "E" exTwo 1000 = some opp ∧
      (opp.stakes.length = opp.outcomes.length ∧
       opp.arbitrage_percentage < 1 ∧
       (∀ st ∈ opp.stakes, ∃ n : ℤ, st = (n : ℚ)) ∧
       (0 ≤ (1000:ℚ) → ∀ st ∈ opp.stakes, 0 ≤ st)) := by
  have h : (create_arbitrage_opportunity "E" exTwo 1000).isSome = true := by
    norm_num [create_arbitrage_opportunity, detect_arbitrage,
      calculate_optimal_stakes, exTwo, pyround_five_hundred, Option.isSome]
  obtain ⟨opp, hopp⟩ := Option.isSome_iff_exists.mp h
  exact ⟨opp, hopp, opportunity_invariants "E" exTwo 1000 opp hopp⟩

/-- The seed of the best-odds fold is bounded by the fold's result. -/
lemma bestOf_le (xs : List Outcome) (x : Outcome) :
    x.odds ≤ (xs.foldl (fun b o => if b.odds < o.odds then o else b) x).odds := by
  induction xs generalizing x with
  | nil => simp
  | cons o rest ih =>
    simp only [List.foldl_cons]
    refine le_trans ?_ (ih (if x.odds < o.odds then o else x))
    by_cases h : x.odds < o.odds
    · rw [if_pos h]
      exact h.le
    · rw [if_neg h]

/-- Every traversed element is bounded by the best-odds fold's result. -/
lemma bestOf_mem_le (xs : List Outcome) (x : Outcome) :
    ∀ y ∈ xs, y.odds ≤ (xs.foldl (fun b o => if b.odds < o.odds then o else b) x).odds := by
  induction xs generalizing x with
  | nil => simp
  | cons o rest ih =>
    intro y hy
    simp only [List.foldl_cons]
    rcases List.mem_cons.mp hy with rfl | hmem
    · refine le_trans ?_ (bestOf_le rest (if x.odds < y.odds then y else x))
      by_cases h : x.odds < y.odds
      · rw [if_pos h]
      · rw [if_neg h]
        exact not_lt.mp h
    · exact ih (if x.odds < o.odds then o else x) y hmem

/-- The best-odds fold returns the first element of maximal odds: everything
before it is strictly smaller, everything after it no larger. -/
lemma bestOf_split (xs : List Outcome) (x : Outcome) :
    ∃ l₁ l₂, x :: xs = l₁ ++
        (xs.foldl (fun b o => if b.odds < o.odds then o else b) x) :: l₂ ∧
      (∀ y ∈ l₁, y.odds <
        (xs.foldl (fun b o => if b.odds < o.odds then o else b) x).odds) ∧
      (∀ y ∈ l₂, y.odds ≤
        (xs.foldl (fun b o => if b.odds < o.odds then o else b) x).odds) := by
  induction xs generalizing x with
  | nil => exact ⟨[], [], rfl, by simp, by simp⟩
  | cons o rest ih =>
    simp only [List.foldl_cons]
    by_cases h : x.odds < o.odds
    · rw [if_pos h]
      obtain ⟨l₁, l₂, heq, h₁, h₂⟩ := ih o
      refine ⟨x :: l₁, l₂, ?_, ?_, h₂⟩
      · rw [List.cons_append, ← heq]
      · intro y hy
        rcases List.mem_cons.mp hy with rfl | hmem
        · exact lt_of_lt_of_le h (bestOf_le rest o)
        · exact h₁ y hmem
    · rw [if_neg h]
      obtain ⟨l₁, l₂, heq, h₁, h₂⟩ := ih x
      set w := List.foldl (fun b o => if b.odds < o.odds then o else b) x rest with hw
      cases l₁ with
      | nil =>
        simp only [List.nil_append] at heq
        obtain ⟨hb, hrest⟩ := List.cons.inj heq
        refine ⟨[], o :: rest, ?_, by simp, ?_⟩
        · simp only [List.nil_append]
          rw [← hb]
        · intro y hy
          rcases List.mem_cons.mp hy with rfl | hmem
          · rw [← hb]
            exact not_lt.mp h
          · exact h₂ y (hrest ▸ hmem)
      | cons z t =>
        simp only [List.cons_append] at heq
        obtain ⟨hz, hrest⟩ := List.cons.inj heq
        refine ⟨x :: o :: t, l₂, ?_, ?_, h₂⟩
        · rw [hrest]
          simp
        · intro y hy
          have hxmem : x ∈ z :: t := by
            rw [hz]
            exact List.mem_cons_self z t
          have hxlt : x.odds < w.odds := h₁ x hxmem
          rcases List.mem_cons.mp hy with rfl | hy2
          · exact hxlt
          · rcases List.mem_cons.mp hy2 with rfl | hmem
            · exact lt_of_le_of_lt (not_lt.mp h) hxlt
            · exact h₁ y (List.mem_cons_of_mem z hmem)

/-- What a successful `pickBest` returns: the first element of maximal odds,
witnessed by a split of the list. -/
lemma pickBest_split (l : List Outcome) (b : Outcome) (h : pickBest l = some b) :
    ∃ l₁ l₂, l = l₁ ++ b :: l₂ ∧
      (∀ y ∈ l₁, y.odds < b.odds) ∧ (∀ y ∈ l₂, y.odds ≤ b.odds) := by
  cases l with
  | nil => cases h
  | cons x xs =>
    have hb := Option.some.inj h
    obtain ⟨l₁, l₂, heq, h₁, h₂⟩ := bestOf_split xs x
    rw [hb] at heq h₁ h₂
    exact ⟨l₁, l₂, heq, h₁, h₂⟩

/-- How `lookupGroup` changes under one insertion step of the grouping. -/
lemma lookup_addToGroups (groups : List (String × List Outcome)) (o : Outcome)
    (m : String) :
    lookupGroup m (addToGroups groups o) =
      if o.market = m then some (((lookupGroup m groups).getD []) ++ [o])
      else lookupGroup m groups := by
  induction groups with
  | nil =>
    by_cases h : o.market = m <;> simp [h, addToGroups, lookupGroup]
  | cons p rest ih =>
    obtain ⟨k, g⟩ := p
    by_cases hk : k = o.market
    · subst hk
      by_cases hm : o.market = m
      · simp [addToGroups, lookupGroup, hm]
      · simp [addToGroups, lookupGroup, hm]
    · by_cases hm : k = m
      · subst hm
        have hom : ¬ o.market = k := fun hc => hk hc.symm
        simp [addToGroups, lookupGroup, hk, hom]
      · simp [addToGroups, lookupGroup, hk, hm, ih]

/-- The group stored under label `m` after grouping is exactly the filter of
the input by that label (absent when no outcome carries the label). -/
lemma lookup_groupByMarket (outs : List Outcome) (m : String) :
    lookupGroup m (groupByMarket outs) =
      if outs.filter (fun o => decide (o.market = m)) = [] then none
      else some (outs.filter (fun o => decide (o.market = m))) := by
  induction outs using List.reverseRecOn with
  | nil => simp [groupByMarket, lookupGroup]
  | append_singleton xs o ih =>
    have hgrp : groupByMarket (xs ++ [o]) = addToGroups (groupByMarket xs) o := by
      simp [groupByMarket, List.foldl_append]
    rw [hgrp, lookup_addToGroups, List.filter_append]
    by_cases hom : o.market = m
    · by_cases hfx : xs.filter (fun o => decide (o.market = m)) = [] <;>
        simp [hom, ih, hfx]
    · simp [hom, ih]

/-- What the real-API selection yields for one market label: the first
maximal-odds outcome among the received outcomes carrying that label. -/
lemma selected_spec (outs : List Outcome) (m : String) (b : Outcome)
    (h : (lookupGroup m (groupByMarket outs)).bind pickBest = some b) :
    b.market = m ∧ b ∈ outs ∧
    ∃ l₁ l₂, outs.filter (fun o => decide (o.market = m)) = l₁ ++ b :: l₂ ∧
      (∀ y ∈ l₁, y.odds < b.odds) ∧ (∀ y ∈ l₂, y.odds ≤ b.odds) := by
  rw [lookup_groupByMarket] at h
  by_cases hf : outs.filter (fun o => decide (o.market = m)) = []
  · rw [if_pos hf] at h
    cases h
  · rw [if_neg hf] at h
    simp only [Option.some_bind] at h
    obtain ⟨l₁, l₂, heq, h₁, h₂⟩ := pickBest_split _ b h
    have hbmem : b ∈ outs.filter (fun o => decide (o.market = m)) := by
      rw [heq]
      exact List.mem_append_right _ (List.mem_cons_self _ _)
    obtain ⟨hmo, hdec⟩ := List.mem_filter.mp hbmem
    exact ⟨of_decide_eq_true hdec, hmo, l₁, l₂, heq, h₁, h₂⟩

/-- C4 amended: the real-API aggregation (`scanner_real_api.py`,
`scan_event`) proceeds only with one best outcome per canonical market, in
canonical order; each selected outcome carries the canonical label, comes
from the received outcomes, and is the first outcome of maximal odds among
those with its label (first-seen-wins on ties).  Extraneous labels such as
"Draw No Bet" never enter this selection.  (The mock scanner `scanner.py`
does not filter labels — see the counterexample.) -/
theorem realApi_select_canonical (outs : List Outcome) (best : List Outcome)
    (h : realApiSelect (groupByMarket outs) = some best) :
    ∃ bH bD bA, best = [bH, bD, bA] ∧
      ∀ p ∈ [("Home Win", bH), ("Draw", bD), ("Away Win", bA)],
        p.2.market = p.1 ∧ p.2 ∈ outs ∧
        ∃ l₁ l₂,
          outs.filter (fun o => decide (o.market = p.1)) = l₁ ++ p.2 :: l₂ ∧
          (∀ y ∈ l₁, y.odds < p.2.odds) ∧ (∀ y ∈ l₂, y.odds ≤ p.2.odds) := by
  unfold realApiSelect at h
  by_cases hlen : (groupByMarket outs).length ≥ 3
  case neg =>
    rw [if_neg hlen] at h
    cases h
  case pos =>
    rw [if_pos hlen] at h
    by_cases h3 : (realApiBestOutcomes (groupByMarket outs)).length = 3
    case neg =>
      rw [if_neg h3] at h
      cases h
    case pos =>
      rw [if_pos h3] at h
      have hbest := (Option.some.inj h).symm
      subst hbest
      rcases hH : (lookupGroup "Home Win" (groupByMarket outs)).bind pickBest with _ | bH <;>
      rcases hD : (lookupGroup "Draw" (groupByMarket outs)).bind pickBest with _ | bD <;>
      rcases hA : (lookupGroup "Away Win" (groupByMarket outs)).bind pickBest with _ | bA <;>
        simp only [realApiBestOutcomes, canonicalMarkets, List.filterMap_cons, hH, hD, hA,
          List.filterMap_nil, List.length_cons, List.length_nil] at h3 ⊢ <;>
        try omega
      refine ⟨bH, bD, bA, rfl, ?_⟩
      intro p hp
      have sH := selected_spec outs "Home Win" bH hH
      have sD := selected_spec outs "Draw" bD hD
      have sA := selected_spec outs "Away Win" bA hA
      simp only [List.mem_cons, List.not_mem_nil, or_false] at hp
      rcases hp with rfl | rfl | rfl
      · exact sH
      · exact sD
      · exact sA

/-- Counterexample to C4 as stated: the mock scanner's aggregation
(`scanner.py`, `_check_three_way_arbitrage`) applies no canonical-label
filter.  With three market groups labelled "Home Win", "Draw" and
"Draw No Bet" it selects all three outcomes — including the extraneous
"Draw No Bet" one — and hands them to `create_arbitrage_opportunity`. -/
theorem scanner_nonCanonical_cex :
    scannerBestOutcomes (groupByMarket exScannerDNB) = some exScannerDNB ∧
    check_three_way_arbitrage "E" (groupByMarket exScannerDNB) 1000 =
      create_arbitrage_opportunity "E" exScannerDNB 1000 ∧
    (detect_arbitrage exScannerDNB).1 = true ∧
    (⟨"X3", 5, "Draw No Bet"⟩ : Outcome) ∈ exScannerDNB ∧
    "Draw No Bet" ∉ canonicalMarkets := by
  refine ⟨rfl, rfl, ?_, by simp [exScannerDNB], by decide⟩
  norm_num [detect_arbitrage, exScannerDNB]

/-- Witness for the amended C4 at `exRealDNB`, whose four market groups
include the extraneous "Draw No Bet". -/
theorem realApi_select_canonical_witness :
    realApiSelect (groupByMarket exRealDNB) =
      some [⟨"A", 3, "Home Win"⟩, ⟨"B", 4, "Draw"⟩, ⟨"C", 5, "Away Win"⟩] ∧
    (∃ bH bD bA,
      ([⟨"A", 3, "Home Win"⟩, ⟨"B", 4, "Draw"⟩, ⟨"C", 5, "Away Win"⟩] : List Outcome) =
        [bH, bD, bA] ∧
      ∀ p ∈ [("Home Win", bH), ("Draw", bD), ("Away Win", bA)],
        p.2.market = p.1 ∧ p.2 ∈ exRealDNB ∧
        ∃ l₁ l₂,
          exRealDNB.filter (fun o => decide (o.market = p.1)) = l₁ ++ p.2 :: l₂ ∧
          (∀ y ∈ l₁, y.odds < p.2.odds) ∧ (∀ y ∈ l₂, y.odds ≤ p.2.odds)) := by
  have hsel : realApiSelect (groupByMarket exRealDNB) =
      some [⟨"A", 3, "Home Win"⟩, ⟨"B", 4, "Draw"⟩, ⟨"C", 5, "Away Win"⟩] := rfl
  exact ⟨hsel, realApi_select_canonical exRealDNB _ hsel⟩


end Arb
